import Mathlib

/-!
Shallow embedding of the DNS LRU cache in `crates/resolver/src/dns_lru.rs`
(hickory-dns resolver). Time is modelled in nanoseconds: Rust's
`std::time::Duration` and `std::time::Instant` both become `Nat` counts
of nanoseconds, matching the `std::time`
types for the operations the cache uses (`from_secs`, `as_secs`,
`saturating_duration_since`, `+`, `min`, `max`, `clamp`). DNS TTL fields
are `Nat` values intended to be below `2^32` (Rust `u32`); the two places
the code narrows a `u64` second count into a `u32` field are modelled
explicitly (`u32TryFromOrMax` for `u32::try_from(..).unwrap_or(MAX_TTL)`,
`u32Wrap` for an `as u32` cast).
-/

namespace HickoryDnsLru

/-- Nanoseconds per second, the resolution of a Rust `Duration`. -/
def NANOS_PER_SEC : Nat := 1000000000

/-- One past `u32::MAX`: `2^32`. -/
def U32_LIMIT : Nat := 4294967296

/-- `Duration::from_secs`, in nanoseconds. -/
def secsToDur (s : Nat) : Nat := s * NANOS_PER_SEC

/-- `Duration::as_secs`: whole seconds, truncating. -/
def durAsSecs (d : Nat) : Nat := d / NANOS_PER_SEC

/-- `Ord::clamp` on durations as Rust defines it: `assert!(min <= max)`
then bound the value. The `none` result models the panic on `min > max`. -/
def durClamp (x lo hi : Nat) : Option Nat :=
  if lo ≤ hi then some (if x < lo then lo else if hi < x then hi else x) else none

/-- `u32::try_from(n).unwrap_or(MAX_TTL)` where `MAX_TTL = 86400`. -/
def u32TryFromOrMax (n : Nat) : Nat := if n < U32_LIMIT then n else 86400

/-- A `u64 as u32` cast: reduction modulo `2^32`. -/
def u32Wrap (n : Nat) : Nat := n % U32_LIMIT

/-- `MAX_TTL`: one day in seconds, the default TTL ceiling. -/
def MAX_TTL : Nat := 86400

/-- DNS record types; only `CNAME` and `RRSIG` are treated specially by the
cache, all others go through `other`-like uniform handling. -/
inductive RecordType where
  | A
  | NS
  | CNAME
  | RRSIG
  | other (code : Nat)
  deriving DecidableEq, Repr

/-- Record data. The cache only ever inspects whether the data is an RRSIG
and, if so, which record type the signature covers; everything else is
opaque payload. -/
inductive RData where
  | rrsig (typeCovered : RecordType)
  | a (octets : Nat)
  | generic (tag : Nat) (payload : Nat)
  deriving DecidableEq, Repr

/-- `RRSIG::try_borrow(data)`, reduced to the only field the cache reads:
the covered type, when the data really is an RRSIG. -/
def rrsigTryBorrow : RData → Option RecordType
  | .rrsig covered => some covered
  | _ => none

/-- A DNS query: owner name, record type, class (`proto::op::Query`). -/
structure Query where
  name : String
  queryType : RecordType
  queryClass : Nat
  deriving DecidableEq, Repr

/-- A DNS resource record (`proto::rr::Record`): owner name, type, class,
TTL in seconds (a `u32` on the wire), and data. -/
structure Record where
  name : String
  rrType : RecordType
  dnsClass : Nat
  ttl : Nat
  rdata : RData
  deriving DecidableEq, Repr

/-- A `Lookup`: the records answering one query, stamped with an absolute
deadline (`Lookup::new_with_deadline`). -/
structure Lookup where
  query : Query
  records : List Record
  validUntil : Nat
  deriving DecidableEq, Repr

/-- `ProtoError`, reduced to the only structure the cache distinguishes:
`NoRecordsFound` with its recoverable `negative_ttl` field (plus opaque
remaining fields), or any other error. -/
inductive ProtoError where
  | noRecordsFound (query : Query) (negativeTtl : Option Nat) (responseCode : Nat) (trusted : Bool)
  | message (text : String)
  deriving DecidableEq, Repr

instance : DecidableEq (Except ProtoError Lookup) := fun a b =>
  match a, b with
  | .ok x, .ok y => decidable_of_iff (x = y) (by simp)
  | .ok _, .error _ => .isFalse (by simp)
  | .error _, .ok _ => .isFalse (by simp)
  | .error x, .error y => decidable_of_iff (x = y) (by simp)

/-- The stored unit (`LruValue`): a positive `Lookup` or a negative error,
plus the absolute expiration instant. -/
structure LruValue where
  lookup : Except ProtoError Lookup
  validUntil : Nat
  deriving DecidableEq, Repr

/-- `LruValue::is_current`: `now <= self.valid_until`, boundary inclusive. -/
def LruValue.isCurrent (v : LruValue) (now : Nat) : Bool :=
  decide (now ≤ v.validUntil)

/-- `LruValue::ttl`: remaining time, `valid_until.saturating_duration_since(now)`. -/
def LruValue.ttl (v : LruValue) (now : Nat) : Nat :=
  v.validUntil - now

/-- `LruValue::with_updated_ttl`: rewrite every record's TTL field with the
remaining whole seconds cast `as u32`; keep query, data and deadline. -/
def LruValue.withUpdatedTtl (v : LruValue) (now : Nat) : LruValue :=
  let lk : Except ProtoError Lookup :=
    match v.lookup with
    | .ok l =>
        .ok { query := l.query
              records := l.records.map
                (fun r => { r with ttl := u32Wrap (durAsSecs (LruValue.ttl v now)) })
              validUntil := v.validUntil }
    | .error e => .error e
  { lookup := lk, validUntil := v.validUntil }

/-- The underlying `lru_cache::LruCache`, as a capacity plus an association
list ordered most-recently-used first. -/
structure LruCache where
  capacity : Nat
  entries : List (Query × LruValue)
  deriving Repr

/-- Lookup without touching recency (observer used in specifications). -/
def LruCache.find (c : LruCache) (k : Query) : Option LruValue :=
  (c.entries.find? (fun p => p.1 == k)).map Prod.snd

/-- `LruCache::insert`: (re)place the key at the most-recent position; if
the store then exceeds capacity, drop the least-recently-used entry. -/
def LruCache.insert (c : LruCache) (k : Query) (v : LruValue) : LruCache :=
  let es := (k, v) :: c.entries.filter (fun p => p.1 != k)
  { c with entries := if c.capacity < es.length then es.dropLast else es }

/-- `LruCache::get_mut`: fetch a value and promote its key to
most-recently-used. -/
def LruCache.getMut (c : LruCache) (k : Query) : Option LruValue × LruCache :=
  match c.entries.find? (fun p => p.1 == k) with
  | none => (none, c)
  | some p => (some p.2, { c with entries := (k, p.2) :: c.entries.filter (fun q => q.1 != k) })

/-- `LruCache::remove`. -/
def LruCache.removeKey (c : LruCache) (k : Query) : LruCache :=
  { c with entries := c.entries.filter (fun p => p.1 != k) }

/-- The `DnsLru`: the store plus the four configured TTL bounds. -/
structure DnsLru where
  cache : LruCache
  positiveMinTtl : Nat
  negativeMinTtl : Nat
  positiveMaxTtl : Nat
  negativeMaxTtl : Nat
  deriving Repr

/-- `TtlConfig`: the four optional bounds. -/
structure TtlConfig where
  positiveMinTtl : Option Nat
  negativeMinTtl : Option Nat
  positiveMaxTtl : Option Nat
  negativeMaxTtl : Option Nat
  deriving Repr

/-- `DnsLru::new`: defaults are 0 for the minimums and `MAX_TTL` seconds
for the maximums. -/
def DnsLru.new (capacity : Nat) (cfg : TtlConfig) : DnsLru :=
  { cache := { capacity := capacity, entries := [] }
    positiveMinTtl := cfg.positiveMinTtl.getD (secsToDur 0)
    negativeMinTtl := cfg.negativeMinTtl.getD (secsToDur 0)
    positiveMaxTtl := cfg.positiveMaxTtl.getD (secsToDur MAX_TTL)
    negativeMaxTtl := cfg.negativeMaxTtl.getD (secsToDur MAX_TTL) }

/-- `DnsLru::clear`. -/
def DnsLru.clear (self : DnsLru) : DnsLru :=
  { self with cache := { self.cache with entries := [] } }

/-- Observer: the stored value under a key. -/
def DnsLru.findValue (self : DnsLru) (k : Query) : Option LruValue :=
  self.cache.find k

/-- `DnsLru::insert`: fold the per-record TTLs with `min` starting from
`positive_max_ttl`, raise the result to `positive_min_ttl`, stamp
`valid_until = now + ttl`, store and return the `Lookup`. -/
def DnsLru.insert (self : DnsLru) (query : Query) (recordsAndTtl : List (Record × Nat))
    (now : Nat) : Lookup × DnsLru :=
  let folded := recordsAndTtl.foldl
    (fun (acc : List Record × Nat) rt =>
      (acc.1 ++ [rt.1], min acc.2 (secsToDur rt.2)))
    ([], self.positiveMaxTtl)
  let ttl := max self.positiveMinTtl folded.2
  let validUntil := now + ttl
  let lk : Lookup := { query := query, records := folded.1, validUntil := validUntil }
  (lk, { self with cache := self.cache.insert query { lookup := .ok lk, validUntil := validUntil } })

/-- The effective sub-query type used as cache key for one record in
`insert_records`: the original query's type for CNAME, the covered type
for an RRSIG whose data yields one, otherwise the record's own type. -/
def effectiveType (originalQuery : Query) (record : Record) : RecordType :=
  match record.rrType with
  | .CNAME => originalQuery.queryType
  | .RRSIG =>
      match rrsigTryBorrow record.rdata with
      | some covered => covered
      | none => record.rrType
  | _ => record.rrType

/-- The sub-query built for one record: `Query::query(record.name, rtype)`
followed by `set_query_class(record.dns_class)`. -/
def subQuery (originalQuery : Query) (record : Record) : Query :=
  { name := record.name
    queryType := effectiveType originalQuery record
    queryClass := record.dnsClass }

/-- `map.entry(query).or_default().push(rt)` on an association list that
keeps first-insertion key order. -/
def bucketAdd (m : List (Query × List (Record × Nat))) (q : Query) (rt : Record × Nat) :
    List (Query × List (Record × Nat)) :=
  match m with
  | [] => [(q, [rt])]
  | (k, v) :: rest =>
      if k = q then (k, v ++ [rt]) :: rest else (k, v) :: bucketAdd rest q rt

/-- The record-partitioning fold in `insert_records`: bucket each record
under its sub-query, paired with its own TTL. -/
def partitionRecords (originalQuery : Query) (records : List Record) :
    List (Query × List (Record × Nat)) :=
  records.foldl (fun m r => bucketAdd m (subQuery originalQuery r) (r, r.ttl)) []

/-- `DnsLru::insert_records`: partition, insert every bucket, return the
`Lookup` produced for the bucket whose key equals the original query. -/
def DnsLru.insertRecords (self : DnsLru) (originalQuery : Query) (records : List Record)
    (now : Nat) : Option Lookup × DnsLru :=
  (partitionRecords originalQuery records).foldl
    (fun (acc : Option Lookup × DnsLru) b =>
      let step := acc.2.insert b.1 b.2 now
      (if originalQuery = b.1 then some step.1 else acc.1, step.2))
    (none, self)

/-- `DnsLru::duplicate`: store an existing `Lookup` under another key with
deadline `now + ttl`, no clamping, and return it unchanged. -/
def DnsLru.duplicate (self : DnsLru) (query : Query) (lk : Lookup) (ttl : Nat)
    (now : Nat) : Lookup × DnsLru :=
  let validUntil := now + secsToDur ttl
  (lk, { self with cache := self.cache.insert query { lookup := .ok lk, validUntil := validUntil } })

/-- `DnsLru::nx_error_with_ttl`: on a `NoRecordsFound` error, set the
`negative_ttl` field to the new duration's whole seconds narrowed by
`u32::try_from(..).unwrap_or(MAX_TTL)`; leave other errors unchanged. -/
def nxErrorWithTtl (error : ProtoError) (newTtl : Nat) : ProtoError :=
  match error with
  | .noRecordsFound q _ rc tr =>
      .noRecordsFound q (some (u32TryFromOrMax (durAsSecs newTtl))) rc tr
  | e => e

/-- `DnsLru::negative`: when the error carries a `negative_ttl`, clamp it
into the negative bounds (Rust `clamp`, `none` models its panic on
misordered bounds), cache a clone of the *original* error with
`valid_until = now + clamped`, and return the error with its field
rewritten to the clamped duration; otherwise pass the error through with
the cache untouched. -/
def DnsLru.negative (self : DnsLru) (query : Query) (error : ProtoError) (now : Nat) :
    Option (ProtoError × DnsLru) :=
  match error with
  | .noRecordsFound q (some ttl) rc tr =>
      match durClamp (secsToDur ttl) self.negativeMinTtl self.negativeMaxTtl with
      | none => none
      | some ttlDuration =>
          let validUntil := now + ttlDuration
          let cache := self.cache.insert query
            { lookup := .error (.noRecordsFound q (some ttl) rc tr), validUntil := validUntil }
          some (nxErrorWithTtl (.noRecordsFound q (some ttl) rc tr) ttlDuration,
                { self with cache := cache })
  | e => some (e, self)

/-- The `Lookup` built by `DnsLru::insert` for a given query, record list
and instant (named so that theorems can refer to it). -/
def insertLookup (lru : DnsLru) (q : Query) (rts : List (Record × Nat)) (now : Nat) : Lookup :=
  { query := q
    records := rts.map Prod.fst
    validUntil := now + max lru.positiveMinTtl
      (List.foldl min lru.positiveMaxTtl (rts.map (fun rt => secsToDur rt.2))) }

/-- The `LruValue` stored by `DnsLru::insert` (named for theorems). -/
def insertValue (lru : DnsLru) (q : Query) (rts : List (Record × Nat)) (now : Nat) : LruValue :=
  { lookup := .ok (insertLookup lru q rts now)
    validUntil := (insertLookup lru q rts now).validUntil }

/-- Observer: the record list held by a positive stored value. -/
def storedRecords : Option LruValue → Option (List Record)
  | some v =>
      match v.lookup with
      | .ok l => some l.records
      | .error _ => none
  | none => none

/-- Observer: the TTL fields of a positive outcome's records. -/
def outcomeTtls : Except ProtoError Lookup → List Nat
  | .ok l => l.records.map Record.ttl
  | .error _ => []

/-- The outcome a current hit returns: `with_updated_ttl` for a positive
entry, and for a negative entry the stored error with its `negative_ttl`
rewritten to the remaining time (the closure body in `DnsLru::get`). -/
def rebasedOutcome (value : LruValue) (now : Nat) : Except ProtoError Lookup :=
  match (value.withUpdatedTtl now).lookup with
  | .error e => .error (nxErrorWithTtl e (value.ttl now))
  | .ok l => .ok l

/-- `DnsLru::get`: fetch and promote; if current, return the rebased
outcome; if expired, remove the entry and return nothing. -/
def DnsLru.get (self : DnsLru) (query : Query) (now : Nat) :
    Option (Except ProtoError Lookup) × DnsLru :=
  let fetched := self.cache.getMut query
  match fetched.1 with
  | none => (none, { self with cache := fetched.2 })
  | some value =>
      if value.isCurrent now then
        (some (rebasedOutcome value now), { self with cache := fetched.2 })
      else
        (none, { self with cache := fetched.2.removeKey query })

/-- Fixture query used by witnesses. -/
def qW : Query := { name := "w.example.com.", queryType := .A, queryClass := 1 }

/-- Second fixture query (an alias key). -/
def qX : Query := { name := "x.example.com.", queryType := .A, queryClass := 1 }

/-- Fixture A record with a given TTL and payload. -/
def recW (t oct : Nat) : Record :=
  { name := "w.example.com.", rrType := .A, dnsClass := 1, ttl := t, rdata := .a oct }

/-- Fixture CNAME record under a different owner name. -/
def recCn : Record :=
  { name := "alias.example.com.", rrType := .CNAME, dnsClass := 1, ttl := 5,
    rdata := .generic 5 0 }

/-- Fixture RRSIG record covering A. -/
def recSigA : Record :=
  { name := "w.example.com.", rrType := .RRSIG, dnsClass := 1, ttl := 30, rdata := .rrsig .A }

/-- Fixture RRSIG record covering NS, same owner name. -/
def recSigNS : Record :=
  { name := "w.example.com.", rrType := .RRSIG, dnsClass := 1, ttl := 40, rdata := .rrsig .NS }

/-- Fixture bounds: positive and negative TTLs clamped into [2 s, 60 s]. -/
def cfgW : TtlConfig :=
  { positiveMinTtl := some (secsToDur 2), negativeMinTtl := some (secsToDur 2)
    positiveMaxTtl := some (secsToDur 60), negativeMaxTtl := some (secsToDur 60) }

/-- Fixture cache with capacity 8 and the bounds of `cfgW`. -/
def lruW : DnsLru := DnsLru.new 8 cfgW

/-- Fixture insertion: one A record with TTL 5 s at instant 0. -/
def insW : Lookup × DnsLru := lruW.insert qW [(recW 5 1, 5)] 0

/-- The value `insW` stores (by `insert_eq`). -/
def vWd : LruValue := insertValue lruW qW [(recW 5 1, 5)] 0

/-- The Lookup `insW` returns (by `insert_eq`). -/
def lkWd : Lookup := insertLookup lruW qW [(recW 5 1, 5)] 0

/-- Bounds far beyond u32 seconds on the negative side (2^32 s). -/
def cfgHugeNeg : TtlConfig :=
  { positiveMinTtl := none, negativeMinTtl := some (secsToDur 4294967296)
    positiveMaxTtl := none, negativeMaxTtl := some (secsToDur 4294967296) }

/-- Cache with the huge negative bounds. -/
def lruHugeNeg : DnsLru := DnsLru.new 4 cfgHugeNeg

/-- A NoRecordsFound error carrying `negative_ttl = 0`. -/
def errW : ProtoError := .noRecordsFound qW (some 0) 0 false

/-- A positive minimum of 2^32 seconds. -/
def cfgHugePos : TtlConfig :=
  { positiveMinTtl := some (secsToDur 4294967296), negativeMinTtl := none
    positiveMaxTtl := none, negativeMaxTtl := none }

/-- Cache with the huge positive floor. -/
def lruHugePos : DnsLru := DnsLru.new 4 cfgHugePos

/-- Insertion whose clamped TTL is 2^32 seconds. -/
def insHuge : Lookup × DnsLru := lruHugePos.insert qW [(recW 1 7, 1)] 0

theorem foldl_min_min (l : List Nat) (a : Nat) :
    ∀ b : Nat, List.foldl min (min a b) l = min a (List.foldl min b l) := by
  induction l with
  | nil => intro b; rfl
  | cons x xs ih =>
      intro b
      simp only [List.foldl_cons]
      rw [show min (min a b) x = min a (min b x) from min_assoc a b x, ih]

theorem insertFold_spec (l : List (Record × Nat)) :
    ∀ (rs : List Record) (d : Nat),
      l.foldl (fun (acc : List Record × Nat) rt =>
        (acc.1 ++ [rt.1], min acc.2 (secsToDur rt.2))) (rs, d) =
      (rs ++ l.map Prod.fst, List.foldl min d (l.map (fun rt => secsToDur rt.2))) := by
  induction l with
  | nil => intro rs d; simp
  | cons x xs ih =>
      intro rs d
      simp only [List.foldl_cons, List.map_cons]
      rw [ih]
      simp

theorem insert_entries_shape (c : LruCache) (k : Query) (v : LruValue) (h : 1 ≤ c.capacity) :
    ∃ rest, (c.insert k v).entries = (k, v) :: rest ∧
      ∀ p ∈ rest, (p.1 == k) = false := by
  unfold LruCache.insert
  have hfil : ∀ p ∈ c.entries.filter (fun p => p.1 != k), (p.1 == k) = false := by
    intro p hp
    have := List.of_mem_filter hp
    simpa [bne] using this
  cases hp : c.entries.filter (fun p => p.1 != k) with
  | nil =>
      have hnc : ¬ (c.capacity < ((k, v) :: ([] : List (Query × LruValue))).length) := by
        simp only [List.length_cons, List.length_nil]
        omega
      refine ⟨[], ?_, by intro p hp; cases hp⟩
      simp only [hp]
      rw [if_neg hnc]
  | cons q qs =>
      by_cases hc : c.capacity < ((k, v) :: q :: qs).length
      · refine ⟨(q :: qs).dropLast, ?_, ?_⟩
        · simp only [hp]
          rw [if_pos hc, List.dropLast_cons₂]
        · intro p hmem
          exact hfil p (by rw [hp]; exact List.dropLast_subset _ hmem)
      · refine ⟨q :: qs, ?_, ?_⟩
        · simp only [hp]
          rw [if_neg hc]
        · intro p hmem
          exact hfil p (by rw [hp]; exact hmem)

theorem find_cons_self (c : LruCache) (k : Query) (v : LruValue) (rest : List (Query × LruValue))
    (h : c.entries = (k, v) :: rest) : c.find k = some v := by
  unfold LruCache.find
  rw [h]
  simp [List.find?_cons]

theorem find_insert_self (c : LruCache) (k : Query) (v : LruValue) (h : 1 ≤ c.capacity) :
    (c.insert k v).find k = some v := by
  obtain ⟨rest, hsh, -⟩ := insert_entries_shape c k v h
  exact find_cons_self _ k v rest hsh

/-- Claim C1: a positive insert stores and returns a Lookup whose
valid_until is now plus the effective TTL max(positive_min, min(positive_max, t_1, ..., t_n));
for a nonempty record list this is the clamp of the minimum record TTL into
[positive_min, positive_max], and for an empty list it is max(positive_min, positive_max);
the records are stored unchanged and insert is total (never fails). -/
theorem insert_positive_ttl_clamped (lru : DnsLru) (q : Query) (rts : List (Record × Nat))
    (now : Nat) (hcap : 1 ≤ lru.cache.capacity) :
    (lru.insert q rts now).1.validUntil =
      now + max lru.positiveMinTtl
        (List.foldl min lru.positiveMaxTtl (rts.map (fun rt => secsToDur rt.2))) ∧
    (lru.insert q rts now).1.records = rts.map Prod.fst ∧
    (lru.insert q rts now).1.query = q ∧
    ((lru.insert q rts now).2).findValue q =
      some { lookup := .ok (lru.insert q rts now).1,
             validUntil := (lru.insert q rts now).1.validUntil } ∧
    (rts = [] → (lru.insert q rts now).1.records = [] ∧
      (lru.insert q rts now).1.validUntil = now + max lru.positiveMinTtl lru.positiveMaxTtl) ∧
    (∀ r t rest, rts = (r, t) :: rest →
      List.foldl min lru.positiveMaxTtl (rts.map (fun rt => secsToDur rt.2)) =
        min (List.foldl min (secsToDur t) (rest.map (fun rt => secsToDur rt.2)))
          lru.positiveMaxTtl) := by
  set eff := max lru.positiveMinTtl
    (List.foldl min lru.positiveMaxTtl (rts.map (fun rt => secsToDur rt.2))) with heff
  set lk : Lookup :=
    { query := q, records := rts.map Prod.fst, validUntil := now + eff } with hlk
  have hins : lru.insert q rts now =
      (lk, { lru with cache := lru.cache.insert q { lookup := .ok lk, validUntil := now + eff } }) := by
    unfold DnsLru.insert
    rw [insertFold_spec]
    simp [hlk, heff]
  refine ⟨by rw [hins], by rw [hins], by rw [hins], ?_, ?_, ?_⟩
  · rw [hins]
    unfold DnsLru.findValue
    have := find_insert_self lru.cache q { lookup := .ok lk, validUntil := now + eff } hcap
    simpa [hlk] using this
  · intro he
    subst he
    rw [hins]
    simp [hlk, heff]
  · intro r t rest he
    subst he
    simp only [List.map_cons, List.foldl_cons]
    rw [foldl_min_min (rest.map (fun rt => secsToDur rt.2)) lru.positiveMaxTtl (secsToDur t)]
    exact min_comm _ _

/-- Claim C9: duplicate stores the given Lookup under the query with
valid_until = now + ttl, applying no clamping against any configured
bound (the bounds do not occur in the stored value), and returns the very
same Lookup unchanged. -/
theorem duplicate_unclamped (lru : DnsLru) (q : Query) (l : Lookup) (ttl : Nat) (now : Nat)
    (hcap : 1 ≤ lru.cache.capacity) :
    (lru.duplicate q l ttl now).1 = l ∧
    ((lru.duplicate q l ttl now).2).findValue q =
      some { lookup := .ok l, validUntil := now + secsToDur ttl } := by
  refine ⟨rfl, ?_⟩
  unfold DnsLru.duplicate DnsLru.findValue
  exact find_insert_self _ _ _ hcap

/-- Claim C10: both u32 narrowings are total; the negative-ttl rewrite
saturates to MAX_TTL = 86400 above u32 range while the positive-record
rewrite wraps modulo 2^32, and they agree exactly on second counts that
fit in u32. -/
theorem ttl_rewrite_paths (d : Nat) (q : Query) (nt : Option Nat) (rc : Nat) (tr : Bool)
    (v : LruValue) (l : Lookup) (now : Nat) (hl : v.lookup = .ok l) :
    nxErrorWithTtl (.noRecordsFound q nt rc tr) d
      = .noRecordsFound q (some (u32TryFromOrMax (durAsSecs d))) rc tr ∧
    (v.withUpdatedTtl now).lookup
      = .ok { query := l.query,
              records := l.records.map
                (fun r => { r with ttl := u32Wrap (durAsSecs (LruValue.ttl v now)) }),
              validUntil := v.validUntil } ∧
    (durAsSecs d < U32_LIMIT →
      u32TryFromOrMax (durAsSecs d) = durAsSecs d ∧ u32Wrap (durAsSecs d) = durAsSecs d) ∧
    u32TryFromOrMax (durAsSecs (secsToDur U32_LIMIT)) = MAX_TTL ∧
    u32Wrap (durAsSecs (secsToDur U32_LIMIT)) = 0 ∧
    u32TryFromOrMax (durAsSecs (secsToDur U32_LIMIT))
      ≠ u32Wrap (durAsSecs (secsToDur U32_LIMIT)) ∧
    MAX_TTL = 86400 := by
  refine ⟨rfl, ?_, ?_, by decide, by decide, by decide, rfl⟩
  · unfold LruValue.withUpdatedTtl
    rw [hl]
  · intro h
    constructor
    · unfold u32TryFromOrMax
      rw [if_pos h]
    · unfold u32Wrap
      exact Nat.mod_eq_of_lt h

/-- Claim C6: a CNAME record is keyed under the original query's type with
the record's own name and class; a record that is neither CNAME nor RRSIG
is keyed under its own type. -/
theorem cname_and_default_keys (oq : Query) (r : Record) :
    (r.rrType = .CNAME →
      subQuery oq r = { name := r.name, queryType := oq.queryType, queryClass := r.dnsClass }) ∧
    (r.rrType ≠ .CNAME → r.rrType ≠ .RRSIG →
      subQuery oq r = { name := r.name, queryType := r.rrType, queryClass := r.dnsClass }) := by
  constructor
  · intro h
    unfold subQuery effectiveType
    rw [h]
  · intro h1 h2
    unfold subQuery effectiveType
    cases hr : r.rrType <;> simp_all

theorem durClamp_eq (x lo hi : Nat) (h : lo ≤ hi) :
    durClamp x lo hi = some (max lo (min x hi)) := by
  have hinner : (if x < lo then lo else if hi < x then hi else x) = max lo (min x hi) := by
    rw [Nat.min_def, Nat.max_def]
    split_ifs <;> omega
  unfold durClamp
  rw [if_pos h, hinner]

/-- Claim C2 (amended): when the error carries negative_ttl t, the cached
entry's valid_until is now + clamp(t, negative_min, negative_max) and the
returned error's negative_ttl is that clamped duration's whole seconds
narrowed by u32::try_from(..).unwrap_or(MAX_TTL); an error without a
negative_ttl is passed through and nothing is cached. -/
theorem negative_clamps_amended (lru : DnsLru) (query q : Query) (t rc : Nat) (tr : Bool)
    (s : String) (now : Nat) (hcap : 1 ≤ lru.cache.capacity)
    (hb : lru.negativeMinTtl ≤ lru.negativeMaxTtl) :
    (lru.negative query (.noRecordsFound q (some t) rc tr) now).map (fun p => p.1)
      = some (.noRecordsFound q
          (some (u32TryFromOrMax (durAsSecs (max lru.negativeMinTtl
            (min (secsToDur t) lru.negativeMaxTtl))))) rc tr) ∧
    (lru.negative query (.noRecordsFound q (some t) rc tr) now).map
        (fun p => p.2.findValue query)
      = some (some
          { lookup := .error (.noRecordsFound q (some t) rc tr)
            validUntil := now + max lru.negativeMinTtl
              (min (secsToDur t) lru.negativeMaxTtl) }) ∧
    lru.negative query (.noRecordsFound q none rc tr) now
      = some (.noRecordsFound q none rc tr, lru) ∧
    lru.negative query (.message s) now = some (.message s, lru) := by
  have h := durClamp_eq (secsToDur t) lru.negativeMinTtl lru.negativeMaxTtl hb
  refine ⟨?_, ?_, rfl, rfl⟩
  · simp [DnsLru.negative, h, nxErrorWithTtl]
  · simp only [DnsLru.negative, h]
    unfold DnsLru.findValue
    have hf := find_insert_self lru.cache query
      { lookup := .error (.noRecordsFound q (some t) rc tr)
        validUntil := now + max lru.negativeMinTtl
          (min (secsToDur t) lru.negativeMaxTtl) } hcap
    simpa using hf

theorem find?_filter_ne (l : List (Query × LruValue)) (k q : Query) (hk : k ≠ q) :
    (l.filter (fun p => p.1 != q)).find? (fun p => p.1 == k)
      = l.find? (fun p => p.1 == k) := by
  induction l with
  | nil => rfl
  | cons a l ih =>
      by_cases haq : a.1 = q
      · have h1 : (a.1 != q) = false := by simp [haq]
        have h2 : (a.1 == k) = false := by
          refine beq_eq_false_iff_ne.mpr ?_
          rw [haq]
          exact fun hh => hk hh.symm
        simp [List.filter_cons, h1, List.find?_cons, h2, ih]
      · have h1 : (a.1 != q) = true := bne_iff_ne.mpr haq
        cases hak : (a.1 == k) <;>
          simp [List.filter_cons, h1, List.find?_cons, hak, ih]

theorem find?_filter_self (l : List (Query × LruValue)) (q : Query) :
    (l.filter (fun p => p.1 != q)).find? (fun p => p.1 == q) = none := by
  apply List.find?_eq_none.mpr
  intro p hp
  have := List.of_mem_filter hp
  simpa [bne] using this

theorem filter_ne_idem (l : List (Query × LruValue)) (q : Query) :
    (l.filter (fun p => p.1 != q)).filter (fun p => p.1 != q)
      = l.filter (fun p => p.1 != q) := by
  induction l with
  | nil => rfl
  | cons a l ih => cases h : (a.1 != q) <;> simp [List.filter_cons, h, ih]

theorem getMut_eq_found (c : LruCache) (k : Query) (p : Query × LruValue)
    (hf : c.entries.find? (fun pr => pr.1 == k) = some p) :
    c.getMut k = (some p.2,
      { c with entries := (k, p.2) :: c.entries.filter (fun pr => pr.1 != k) }) := by
  unfold LruCache.getMut
  rw [hf]

theorem getMut_eq_none (c : LruCache) (k : Query)
    (hf : c.entries.find? (fun pr => pr.1 == k) = none) :
    c.getMut k = (none, c) := by
  unfold LruCache.getMut
  rw [hf]

theorem get_eq_absentMut (lru : DnsLru) (q : Query) (now : Nat) (c2 : LruCache)
    (hm : lru.cache.getMut q = (none, c2)) :
    lru.get q now = (none, { lru with cache := c2 }) := by
  unfold DnsLru.get
  simp [hm]

theorem get_eq_foundMut (lru : DnsLru) (q : Query) (now : Nat) (v : LruValue) (c2 : LruCache)
    (hm : lru.cache.getMut q = (some v, c2)) :
    lru.get q now =
      (if v.isCurrent now then (some (rebasedOutcome v now), { lru with cache := c2 })
       else (none, { lru with cache := c2.removeKey q })) := by
  unfold DnsLru.get
  simp only [hm]

theorem get_absent (lru : DnsLru) (q : Query) (now : Nat)
    (h : lru.findValue q = none) : lru.get q now = (none, lru) := by
  unfold DnsLru.findValue LruCache.find at h
  cases hf : lru.cache.entries.find? (fun p => p.1 == q) with
  | none => exact get_eq_absentMut lru q now lru.cache (getMut_eq_none _ _ hf)
  | some p =>
      rw [hf] at h
      exact Option.noConfusion h

/-- Claim C3: get on an absent key misses and leaves the cache unchanged;
on a stored entry with deadline d it returns the rebased outcome for
every now ≤ d (boundary inclusive), while for now > d it returns nothing
and removes the entry, after which every later get for that query misses
whatever instant it carries. -/
theorem get_hit_miss_eviction (lru : DnsLru) (q : Query) (now : Nat) :
    (lru.findValue q = none → lru.get q now = (none, lru)) ∧
    (∀ v, lru.findValue q = some v →
      (now ≤ v.validUntil → (lru.get q now).1 = some (rebasedOutcome v now)) ∧
      (v.validUntil < now →
        (lru.get q now).1 = none ∧
        ((lru.get q now).2).findValue q = none ∧
        (∀ now2, ((lru.get q now).2).get q now2 = (none, (lru.get q now).2)))) := by
  refine ⟨get_absent lru q now, ?_⟩
  intro v hv
  unfold DnsLru.findValue LruCache.find at hv
  cases hf : lru.cache.entries.find? (fun p => p.1 == q) with
  | none =>
      rw [hf] at hv
      exact Option.noConfusion hv
  | some p =>
      rw [hf] at hv
      have hv2 : p.2 = v := by simpa using hv
      subst hv2
      have hmut := getMut_eq_found lru.cache q p hf
      have hg := get_eq_foundMut lru q now p.2 _ hmut
      constructor
      · intro hle
        have hcur : p.2.isCurrent now = true := by
          simp [LruValue.isCurrent, hle]
        rw [hg]
        simp [hcur]
      · intro hlt
        have hcur : p.2.isCurrent now = false := by
          have hn : ¬ (now ≤ p.2.validUntil) := by omega
          simp [LruValue.isCurrent, hn]
        rw [hg]
        simp only [hcur, Bool.false_eq_true, if_false]
        have habs : (({ lru with cache :=
            ({ lru.cache with entries :=
              (q, p.2) :: lru.cache.entries.filter (fun pr => pr.1 != q) } :
                LruCache).removeKey q }) : DnsLru).findValue q = none := by
          unfold DnsLru.findValue LruCache.find LruCache.removeKey
          simp only [List.filter_cons]
          have hqq : ((q, p.2).1 != q) = false := by simp
          rw [hqq]
          simp only [Bool.false_eq_true, if_false, filter_ne_idem]
          rw [find?_filter_self]
          rfl
        refine ⟨trivial, habs, ?_⟩
        intro now2
        exact get_absent _ q now2 habs

/-- Claim C8: after a successful (hit) get, the stored mapping is
unchanged for every key: the rebased TTLs and the hit's deadline are not
written back, so a stored entry only changes by whole-entry replacement
through a later insertion. -/
theorem get_preserves_store (lru : DnsLru) (q : Query) (now : Nat) (r : Except ProtoError Lookup)
    (h : (lru.get q now).1 = some r) :
    ∀ k, ((lru.get q now).2).findValue k = lru.findValue k := by
  intro k
  cases hf : lru.cache.entries.find? (fun pr => pr.1 == q) with
  | none =>
      have hg := get_eq_absentMut lru q now lru.cache (getMut_eq_none _ _ hf)
      rw [hg] at h
      exact Option.noConfusion h
  | some p =>
      have hg := get_eq_foundMut lru q now p.2 _ (getMut_eq_found _ _ _ hf)
      cases hcur : p.2.isCurrent now with
      | false =>
          rw [hg] at h
          simp [hcur] at h
      | true =>
          rw [hg, if_pos hcur]
          unfold DnsLru.findValue LruCache.find
          by_cases hkq : k = q
          · subst hkq
            simp [List.find?_cons, hf]
          · have hqk : (q == k) = false := beq_eq_false_iff_ne.mpr (fun hh => hkq hh.symm)
            simp [List.find?_cons, hqk, find?_filter_ne _ _ _ hkq]

/-- Claim C4 (amended): a positive hit returns the stored records with
name, type, class and data unchanged and every TTL field set to the
remaining whole seconds reduced modulo 2^32 (equal to the remaining
whole seconds whenever they fit in u32, in which case the field is
non-increasing as now advances and is 0 at now = valid_until); the
returned Lookup keeps the stored valid_until, and the remaining time
saturates at zero. -/
theorem positive_hit_ttl_amended (lru : DnsLru) (q : Query) (v : LruValue) (l : Lookup)
    (now : Nat) (hv : lru.findValue q = some v) (hl : v.lookup = .ok l)
    (hcur : now ≤ v.validUntil) :
    (lru.get q now).1 = some (.ok
      { query := l.query
        records := l.records.map
          (fun r => { r with ttl := u32Wrap (durAsSecs (v.validUntil - now)) })
        validUntil := v.validUntil }) ∧
    (durAsSecs (v.validUntil - now) < U32_LIMIT →
      u32Wrap (durAsSecs (v.validUntil - now)) = durAsSecs (v.validUntil - now) ∧
      ∀ now2, now ≤ now2 → now2 ≤ v.validUntil →
        u32Wrap (durAsSecs (v.validUntil - now2)) ≤ u32Wrap (durAsSecs (v.validUntil - now))) ∧
    u32Wrap (durAsSecs (v.validUntil - v.validUntil)) = 0 ∧
    (∀ m, v.validUntil ≤ m → LruValue.ttl v m = 0) := by
  refine ⟨?_, ?_, ?_, ?_⟩
  · unfold DnsLru.findValue LruCache.find at hv
    cases hf : lru.cache.entries.find? (fun pr => pr.1 == q) with
    | none =>
        rw [hf] at hv
        exact Option.noConfusion hv
    | some p =>
        rw [hf] at hv
        have hv2 : p.2 = v := by simpa using hv
        subst hv2
        have hg := get_eq_foundMut lru q now p.2 _ (getMut_eq_found _ _ _ hf)
        have hc : p.2.isCurrent now = true := by simp [LruValue.isCurrent, hcur]
        rw [hg, if_pos hc]
        show some (rebasedOutcome p.2 now) = _
        unfold rebasedOutcome LruValue.withUpdatedTtl
        simp [hl, LruValue.ttl]
  · intro hfit
    constructor
    · unfold u32Wrap
      exact Nat.mod_eq_of_lt hfit
    · intro now2 h1 h2
      have hsub : v.validUntil - now2 ≤ v.validUntil - now := Nat.sub_le_sub_left h1 _
      have hsec : durAsSecs (v.validUntil - now2) ≤ durAsSecs (v.validUntil - now) :=
        Nat.div_le_div_right hsub
      unfold u32Wrap
      rw [Nat.mod_eq_of_lt (lt_of_le_of_lt hsec hfit), Nat.mod_eq_of_lt hfit]
      exact hsec
  · simp [u32Wrap, durAsSecs, Nat.sub_self]
  · intro m hm
    unfold LruValue.ttl
    omega

theorem insert_snd_bounds (lru : DnsLru) (q : Query) (b : List (Record × Nat)) (now : Nat) :
    ((lru.insert q b now).2).positiveMinTtl = lru.positiveMinTtl ∧
    ((lru.insert q b now).2).positiveMaxTtl = lru.positiveMaxTtl :=
  ⟨rfl, rfl⟩

theorem insert_fst_bounds (lru1 lru2 : DnsLru) (q : Query) (b : List (Record × Nat)) (now : Nat)
    (hmin : lru1.positiveMinTtl = lru2.positiveMinTtl)
    (hmax : lru1.positiveMaxTtl = lru2.positiveMaxTtl) :
    (lru1.insert q b now).1 = (lru2.insert q b now).1 := by
  unfold DnsLru.insert
  rw [hmin, hmax]

theorem foldl_no_match (oq : Query) (now : Nat) (bs : List (Query × List (Record × Nat))) :
    ∀ acc : Option Lookup × DnsLru, (∀ b ∈ bs, b.1 ≠ oq) →
      (bs.foldl (fun acc b =>
        (if oq = b.1 then some ((acc.2.insert b.1 b.2 now).1) else acc.1,
         (acc.2.insert b.1 b.2 now).2)) acc).1 = acc.1 := by
  induction bs with
  | nil => intro acc _; rfl
  | cons c rest ih =>
      intro acc h
      have hc : c.1 ≠ oq := h c (List.mem_cons_self c rest)
      simp only [List.foldl_cons]
      rw [ih _ (fun b hb => h b (List.mem_cons_of_mem _ hb))]
      exact if_neg (fun hh => hc hh.symm)

theorem foldl_match (oq : Query) (now : Nat) (L : DnsLru)
    (bs : List (Query × List (Record × Nat))) :
    ∀ acc : Option Lookup × DnsLru,
      (bs.map Prod.fst).Nodup →
      acc.2.positiveMinTtl = L.positiveMinTtl →
      acc.2.positiveMaxTtl = L.positiveMaxTtl →
      ∀ b ∈ bs, b.1 = oq →
      (bs.foldl (fun acc b =>
        (if oq = b.1 then some ((acc.2.insert b.1 b.2 now).1) else acc.1,
         (acc.2.insert b.1 b.2 now).2)) acc).1 = some ((L.insert oq b.2 now).1) := by
  induction bs with
  | nil => intro acc _ _ _ b hb; cases hb
  | cons c rest ih =>
      intro acc hnd hmin hmax b hb hbq
      simp only [List.foldl_cons]
      rcases List.mem_cons.mp hb with hbc | hbr
      · subst hbc
        have hnotin : ∀ b2 ∈ rest, b2.1 ≠ oq := by
          intro b2 hb2 hq2
          have hmem : b.1 ∈ rest.map Prod.fst := by
            rw [hbq, ← hq2]
            exact List.mem_map_of_mem _ hb2
          exact (List.nodup_cons.mp hnd).1 hmem
        rw [foldl_no_match oq now rest _ hnotin]
        have hcond : oq = b.1 := hbq.symm
        rw [if_pos hcond]
        rw [hbq]
        exact congrArg some (insert_fst_bounds acc.2 L oq b.2 now hmin hmax)
      · have hc1 : c.1 ≠ oq := by
          intro hcq
          have hmem : c.1 ∈ rest.map Prod.fst := by
            rw [hcq, ← hbq]
            exact List.mem_map_of_mem _ hbr
          exact (List.nodup_cons.mp hnd).1 hmem
        apply ih
        · exact (List.nodup_cons.mp hnd).2
        · rw [(insert_snd_bounds acc.2 c.1 c.2 now).1]
          exact hmin
        · rw [(insert_snd_bounds acc.2 c.1 c.2 now).2]
          exact hmax
        · exact hbr
        · exact hbq

theorem foldl_pair_snd (oq : Query) (now : Nat) (bs : List (Query × List (Record × Nat))) :
    ∀ acc : Option Lookup × DnsLru,
      (bs.foldl (fun acc b =>
        (if oq = b.1 then some ((acc.2.insert b.1 b.2 now).1) else acc.1,
         (acc.2.insert b.1 b.2 now).2)) acc).2
      = bs.foldl (fun s b => (s.insert b.1 b.2 now).2) acc.2 := by
  induction bs with
  | nil => intro acc; rfl
  | cons c rest ih =>
      intro acc
      simp only [List.foldl_cons]
      rw [ih]

theorem bucketAdd_keys (q : Query) (rt : Record × Nat) :
    ∀ m : List (Query × List (Record × Nat)),
      (bucketAdd m q rt).map Prod.fst =
        if q ∈ m.map Prod.fst then m.map Prod.fst else m.map Prod.fst ++ [q] := by
  intro m
  induction m with
  | nil => simp [bucketAdd]
  | cons c rest ih =>
      by_cases h : c.1 = q
      · have hmem : q ∈ (c :: rest).map Prod.fst := by
          simp [List.mem_cons, h.symm]
        simp [bucketAdd, h, hmem]
      · have hne : ¬ (q = c.1) := fun hh => h hh.symm
        by_cases hm : q ∈ rest.map Prod.fst
        · have hmem : q ∈ (c :: rest).map Prod.fst := by
            simp [List.mem_cons, hm]
          simp [bucketAdd, h, ih, hm, hmem]
        · have hmem : ¬ (q ∈ (c :: rest).map Prod.fst) := by
            simp [List.mem_cons, hne, hm]
          simp [bucketAdd, h, ih, hm, hmem]
          rw [if_neg hne]

theorem partition_keys_nodup (oq : Query) (records : List Record) :
    ((partitionRecords oq records).map Prod.fst).Nodup := by
  have key : ∀ (rs : List Record) (m : List (Query × List (Record × Nat))),
      (m.map Prod.fst).Nodup →
      ((rs.foldl (fun m r => bucketAdd m (subQuery oq r) (r, r.ttl)) m).map Prod.fst).Nodup := by
    intro rs
    induction rs with
    | nil => intro m h; exact h
    | cons r rest ih =>
        intro m h
        simp only [List.foldl_cons]
        apply ih
        rw [bucketAdd_keys]
        split
        · exact h
        · next hnotin =>
            rw [List.nodup_append]
            refine ⟨h, List.nodup_singleton _, ?_⟩
            intro a ha hb
            have : a = subQuery oq r := by simpa using hb
            subst this
            exact hnotin ha
  exact key records [] (by simp)

theorem insert_entries_def (c : LruCache) (k : Query) (v : LruValue) :
    (c.insert k v).entries =
      if c.capacity < ((k, v) :: c.entries.filter (fun p => p.1 != k)).length
      then ((k, v) :: c.entries.filter (fun p => p.1 != k)).dropLast
      else (k, v) :: c.entries.filter (fun p => p.1 != k) := rfl

theorem insert_no_evict (c : LruCache) (k : Query) (v : LruValue)
    (h : c.entries.length + 1 ≤ c.capacity) :
    (c.insert k v).entries = (k, v) :: c.entries.filter (fun p => p.1 != k) := by
  have hfl := List.length_filter_le (fun p => p.1 != k) c.entries
  have hcond : ¬ (c.capacity < ((k, v) :: c.entries.filter (fun p => p.1 != k)).length) := by
    simp only [List.length_cons]
    omega
  rw [insert_entries_def, if_neg hcond]

theorem insert_cache_shape (lru : DnsLru) (q : Query) (b : List (Record × Nat)) (now : Nat) :
    ∃ v : LruValue, ((lru.insert q b now).2).cache = lru.cache.insert q v :=
  ⟨_, rfl⟩

theorem fold_insert_isSome (now : Nat) (bs : List (Query × List (Record × Nat))) :
    ∀ (s : DnsLru) (k : Query),
      s.cache.entries.length + bs.length ≤ s.cache.capacity →
      ((s.findValue k).isSome ∨ k ∈ bs.map Prod.fst) →
      ((bs.foldl (fun s b => (s.insert b.1 b.2 now).2) s).findValue k).isSome := by
  induction bs with
  | nil =>
      intro s k _ hk
      rcases hk with h | h
      · exact h
      · cases h
  | cons c rest ih =>
      intro s k hcap hk
      simp only [List.foldl_cons]
      obtain ⟨vc, hvc⟩ := insert_cache_shape s c.1 c.2 now
      have hcapc : ((s.insert c.1 c.2 now).2).cache.capacity = s.cache.capacity := by
        rw [hvc]
        rfl
      have hlen : s.cache.entries.length + 1 ≤ s.cache.capacity := by
        simp only [List.length_cons] at hcap
        omega
      have hent : ((s.insert c.1 c.2 now).2).cache.entries
          = (c.1, vc) :: s.cache.entries.filter (fun p => p.1 != c.1) := by
        rw [hvc]
        exact insert_no_evict s.cache c.1 vc hlen
      have hfl := List.length_filter_le (fun p => p.1 != c.1) s.cache.entries
      have hcap2 : ((s.insert c.1 c.2 now).2).cache.entries.length + rest.length
          ≤ ((s.insert c.1 c.2 now).2).cache.capacity := by
        rw [hent, hcapc]
        simp only [List.length_cons, List.length_cons] at hcap ⊢
        omega
      apply ih _ k hcap2
      rcases hk with hs | hmem
      · left
        by_cases hkc : k = c.1
        · have hck : ((c.1, vc).1 == k) = true := by simp [hkc]
          simp [DnsLru.findValue, LruCache.find, hent, List.find?_cons, hck]
        · have hck : ((c.1, vc).1 == k) = false :=
            beq_eq_false_iff_ne.mpr (fun hh => hkc hh.symm)
          simp only [DnsLru.findValue, LruCache.find, hent, List.find?_cons, hck] at hs ⊢
          rw [find?_filter_ne _ _ _ hkc]
          simpa [DnsLru.findValue, LruCache.find] using hs
      · have hmem2 : k = c.1 ∨ k ∈ rest.map Prod.fst := by
          simpa [List.mem_cons] using hmem
        rcases hmem2 with hkc | hr
        · left
          have hck : ((c.1, vc).1 == k) = true := by simp [hkc]
          simp [DnsLru.findValue, LruCache.find, hent, List.find?_cons, hck]
        · right
          exact hr

/-- Claim C7: insert_records inserts every partitioned bucket through
insert, returns the Lookup produced for the bucket whose sub-query equals
the original query, and returns nothing when no bucket matches, even
though (given adequate capacity) the other buckets remain cached. -/
theorem insert_records_match (lru : DnsLru) (oq : Query) (records : List Record) (now : Nat) :
    ((∀ b ∈ partitionRecords oq records, b.1 ≠ oq) →
      (lru.insertRecords oq records now).1 = none) ∧
    (∀ b ∈ partitionRecords oq records, b.1 = oq →
      (lru.insertRecords oq records now).1 = some ((lru.insert oq b.2 now).1)) ∧
    (lru.insertRecords oq records now).2 =
      (partitionRecords oq records).foldl (fun s b => (s.insert b.1 b.2 now).2) lru ∧
    (lru.cache.entries = [] → (partitionRecords oq records).length ≤ lru.cache.capacity →
      ∀ b ∈ partitionRecords oq records,
        (((lru.insertRecords oq records now).2).findValue b.1).isSome) := by
  refine ⟨?_, ?_, ?_, ?_⟩
  · intro hno
    exact foldl_no_match oq now (partitionRecords oq records) (none, lru) hno
  · intro b hb hbq
    exact foldl_match oq now lru (partitionRecords oq records) (none, lru)
      (partition_keys_nodup oq records) rfl rfl b hb hbq
  · exact foldl_pair_snd oq now (partitionRecords oq records) (none, lru)
  · intro hent hcap b hb
    have h2 : (lru.insertRecords oq records now).2 =
        (partitionRecords oq records).foldl (fun s b => (s.insert b.1 b.2 now).2) lru :=
      foldl_pair_snd oq now (partitionRecords oq records) (none, lru)
    rw [h2]
    apply fold_insert_isSome now (partitionRecords oq records) lru b.1
    · rw [hent]
      simpa using hcap
    · right
      exact List.mem_map_of_mem _ hb

theorem insert_eq (lru : DnsLru) (q : Query) (rts : List (Record × Nat)) (now : Nat) :
    lru.insert q rts now =
      (insertLookup lru q rts now,
       { lru with cache := lru.cache.insert q (insertValue lru q rts now) }) := by
  unfold DnsLru.insert insertLookup insertValue insertLookup
  rw [insertFold_spec]
  simp

theorem double_insert_find (lru : DnsLru) (kA kB : Query) (bA bB : List (Record × Nat))
    (now : Nat) (hent : lru.cache.entries = []) (hcap : 2 ≤ lru.cache.capacity)
    (hkk : kA ≠ kB) :
    ((((lru.insert kA bA now).2).insert kB bB now).2).findValue kA
      = some (insertValue lru kA bA now) ∧
    ((((lru.insert kA bA now).2).insert kB bB now).2).findValue kB
      = some (insertValue lru kB bB now) := by
  set vA : LruValue := insertValue lru kA bA now with hvA
  set vB : LruValue := insertValue lru kB bB now with hvB
  have hs1 : ((lru.insert kA bA now).2).cache = lru.cache.insert kA vA := by
    rw [insert_eq]
  have hcapA : ((lru.insert kA bA now).2).cache.capacity = lru.cache.capacity := by
    rw [hs1]
    rfl
  have h1 : lru.cache.entries.length + 1 ≤ lru.cache.capacity := by
    rw [hent]
    simpa using by omega
  have hentA : ((lru.insert kA bA now).2).cache.entries = [(kA, vA)] := by
    rw [hs1, insert_no_evict _ _ _ h1, hent]
    rfl
  have hs2 : ((((lru.insert kA bA now).2).insert kB bB now).2).cache
      = ((lru.insert kA bA now).2).cache.insert kB vB := by
    rw [insert_eq]
    rfl
  have h2 : ((lru.insert kA bA now).2).cache.entries.length + 1
      ≤ ((lru.insert kA bA now).2).cache.capacity := by
    rw [hentA, hcapA]
    simpa using by omega
  have hentB : ((((lru.insert kA bA now).2).insert kB bB now).2).cache.entries
      = [(kB, vB), (kA, vA)] := by
    rw [hs2, insert_no_evict _ _ _ h2, hentA]
    have hkeep : ((kA, vA).1 != kB) = true := bne_iff_ne.mpr hkk
    simp [List.filter_cons, hkeep]
  constructor
  · have hBA : ((kB, vB).1 == kA) = false := beq_eq_false_iff_ne.mpr (fun hh => hkk hh.symm)
    have hAA : ((kA, vA).1 == kA) = true := by simp
    simp [DnsLru.findValue, LruCache.find, hentB, List.find?_cons, hBA, hAA]
  · have hBB : ((kB, vB).1 == kB) = true := by simp
    simp [DnsLru.findValue, LruCache.find, hentB, List.find?_cons, hBB]

/-- Claim C5: with the dnssec feature, an RRSIG record is keyed under the
record type its signature covers (falling back to RRSIG only when the
covered type cannot be read from the data), so two signatures sharing an
owner name but covering different types land in two distinct sub-queries
and produce two distinct cache entries, neither overwriting the other. -/
theorem rrsig_distinct_buckets (oq : Query) (r1 r2 : Record) (c1 c2 : RecordType)
    (h1t : r1.rrType = .RRSIG) (h2t : r2.rrType = .RRSIG)
    (h1d : r1.rdata = .rrsig c1) (h2d : r2.rdata = .rrsig c2)
    (hname : r1.name = r2.name) (hne : c1 ≠ c2) :
    subQuery oq r1 = { name := r1.name, queryType := c1, queryClass := r1.dnsClass } ∧
    subQuery oq r2 = { name := r2.name, queryType := c2, queryClass := r2.dnsClass } ∧
    subQuery oq r1 ≠ subQuery oq r2 ∧
    (∀ r : Record, r.rrType = .RRSIG → rrsigTryBorrow r.rdata = none →
      subQuery oq r = { name := r.name, queryType := .RRSIG, queryClass := r.dnsClass }) ∧
    (∀ (lru : DnsLru) (now : Nat), lru.cache.entries = [] → 2 ≤ lru.cache.capacity →
      storedRecords (((lru.insertRecords oq [r1, r2] now).2).findValue (subQuery oq r1))
        = some [r1] ∧
      storedRecords (((lru.insertRecords oq [r1, r2] now).2).findValue (subQuery oq r2))
        = some [r2]) := by
  have hk1 : subQuery oq r1 = { name := r1.name, queryType := c1, queryClass := r1.dnsClass } := by
    simp [subQuery, effectiveType, h1t, h1d, rrsigTryBorrow]
  have hk2 : subQuery oq r2 = { name := r2.name, queryType := c2, queryClass := r2.dnsClass } := by
    simp [subQuery, effectiveType, h2t, h2d, rrsigTryBorrow]
  have hne12 : subQuery oq r1 ≠ subQuery oq r2 := by
    rw [hk1, hk2]
    intro hh
    exact hne (congrArg Query.queryType hh)
  refine ⟨hk1, hk2, hne12, ?_, ?_⟩
  · intro r hrt hrb
    simp [subQuery, effectiveType, hrt, hrb]
  · intro lru now hent hcap
    have hbk : partitionRecords oq [r1, r2]
        = [(subQuery oq r1, [(r1, r1.ttl)]), (subQuery oq r2, [(r2, r2.ttl)])] := by
      unfold partitionRecords
      simp [bucketAdd, hne12]
    have h0 : (lru.insertRecords oq [r1, r2] now).2 =
        (partitionRecords oq [r1, r2]).foldl (fun s b => (s.insert b.1 b.2 now).2) lru :=
      foldl_pair_snd oq now (partitionRecords oq [r1, r2]) (none, lru)
    rw [hbk] at h0
    simp only [List.foldl_cons, List.foldl_nil] at h0
    have hdf := double_insert_find lru (subQuery oq r1) (subQuery oq r2)
      [(r1, r1.ttl)] [(r2, r2.ttl)] now hent hcap hne12
    rw [h0]
    constructor
    · rw [hdf.1]
      simp [storedRecords, insertValue, insertLookup]
    · rw [hdf.2]
      simp [storedRecords, insertValue, insertLookup]

/-- Claim C2 counterexample: with negative bounds of 2^32 seconds and an
error carrying negative_ttl 0, the clamped duration is 2^32 seconds but
the returned error's negative_ttl field is MAX_TTL = 86400, not the
clamped value. -/
theorem negative_rewrite_counterexample :
    durClamp (secsToDur 0) lruHugeNeg.negativeMinTtl lruHugeNeg.negativeMaxTtl
      = some (secsToDur 4294967296) ∧
    (lruHugeNeg.negative qW errW 0).map (fun p => p.1)
      = some (.noRecordsFound qW (some 86400) 0 false) ∧
    durAsSecs (secsToDur 4294967296) = 4294967296 ∧
    (86400 : Nat) ≠ 4294967296 := by
  refine ⟨by decide, by decide, by decide, by decide⟩

/-- Claim C4 counterexample: an entry whose deadline lies 2^32 seconds
ahead yields a hit whose record TTL field is 0, not the remaining whole
seconds 2^32. -/
theorem positive_hit_ttl_counterexample :
    (insHuge.2.findValue qW).map LruValue.validUntil = some (secsToDur 4294967296) ∧
    ((insHuge.2.get qW 0).1).map outcomeTtls = some [0] ∧
    durAsSecs (secsToDur 4294967296 - 0) = 4294967296 ∧
    (0 : Nat) ≠ 4294967296 := by
  refine ⟨by decide, by decide, by decide, by decide⟩

/-- Witness for C1 at concrete inputs: TTL 5 and 9 with bounds [2 s, 60 s]
give effective TTL 5 s. -/
theorem insert_positive_ttl_clamped_witness :
    1 ≤ lruW.cache.capacity ∧
    (lruW.insert qW [(recW 5 1, 5), (recW 9 2, 9)] 100).1.validUntil =
      100 + max lruW.positiveMinTtl
        (List.foldl min lruW.positiveMaxTtl
          ([(recW 5 1, 5), (recW 9 2, 9)].map (fun rt => secsToDur rt.2))) ∧
    (lruW.insert qW [(recW 5 1, 5), (recW 9 2, 9)] 100).1.validUntil = 100 + secsToDur 5 :=
  ⟨by decide,
   (insert_positive_ttl_clamped lruW qW [(recW 5 1, 5), (recW 9 2, 9)] 100 (by decide)).1,
   by decide⟩

/-- Witness for the amended C2: negative_ttl 1 with bounds [2 s, 60 s] is
returned as 2. -/
theorem negative_clamps_amended_witness :
    1 ≤ lruW.cache.capacity ∧ lruW.negativeMinTtl ≤ lruW.negativeMaxTtl ∧
    (lruW.negative qW (.noRecordsFound qW (some 1) 0 false) 0).map (fun p => p.1)
      = some (.noRecordsFound qW
          (some (u32TryFromOrMax (durAsSecs (max lruW.negativeMinTtl
            (min (secsToDur 1) lruW.negativeMaxTtl))))) 0 false) ∧
    (lruW.negative qW (.noRecordsFound qW (some 1) 0 false) 0).map (fun p => p.1)
      = some (.noRecordsFound qW (some 2) 0 false) :=
  ⟨by decide, by decide,
   (negative_clamps_amended lruW qW qW 1 0 false "z" 0 (by decide) (by decide)).1,
   by decide⟩

/-- Witness for C3: the entry stored until 5 s hits at exactly 5 s and
permanently misses at 6 s. -/
theorem get_hit_miss_eviction_witness :
    insW.2.findValue qW = some vWd ∧
    secsToDur 5 ≤ vWd.validUntil ∧
    (insW.2.get qW (secsToDur 5)).1 = some (rebasedOutcome vWd (secsToDur 5)) ∧
    ((insW.2.get qW (secsToDur 6)).1 = none ∧
     ((insW.2.get qW (secsToDur 6)).2).findValue qW = none) :=
  ⟨by decide, by decide,
   ((get_hit_miss_eviction insW.2 qW (secsToDur 5)).2 vWd (by decide)).1 (by decide),
   ⟨(((get_hit_miss_eviction insW.2 qW (secsToDur 6)).2 vWd (by decide)).2 (by decide)).1,
    (((get_hit_miss_eviction insW.2 qW (secsToDur 6)).2 vWd (by decide)).2 (by decide)).2.1⟩⟩

/-- Witness for the amended C4: at 2 s the hit reports record TTL 3. -/
theorem positive_hit_ttl_amended_witness :
    insW.2.findValue qW = some vWd ∧ vWd.lookup = .ok lkWd ∧
    secsToDur 2 ≤ vWd.validUntil ∧
    (insW.2.get qW (secsToDur 2)).1 = some (.ok
      { query := lkWd.query
        records := lkWd.records.map
          (fun r => { r with ttl := u32Wrap (durAsSecs (vWd.validUntil - secsToDur 2)) })
        validUntil := vWd.validUntil }) ∧
    (insW.2.get qW (secsToDur 2)).1.map outcomeTtls = some [3] :=
  ⟨by decide, by decide, by decide,
   (positive_hit_ttl_amended insW.2 qW vWd lkWd (secsToDur 2)
     (by decide) (by decide) (by decide)).1,
   by decide⟩

/-- Witness for C5: RRSIG-over-A and RRSIG-over-NS on one owner name make
two distinct entries holding each record. -/
theorem rrsig_distinct_buckets_witness :
    subQuery qW recSigA = { name := "w.example.com.", queryType := .A, queryClass := 1 } ∧
    subQuery qW recSigNS = { name := "w.example.com.", queryType := .NS, queryClass := 1 } ∧
    storedRecords (((lruW.insertRecords qW [recSigA, recSigNS] 0).2).findValue
      (subQuery qW recSigA)) = some [recSigA] ∧
    storedRecords (((lruW.insertRecords qW [recSigA, recSigNS] 0).2).findValue
      (subQuery qW recSigNS)) = some [recSigNS] :=
  ⟨(rrsig_distinct_buckets qW recSigA recSigNS .A .NS rfl rfl rfl rfl rfl (by decide)).1,
   (rrsig_distinct_buckets qW recSigA recSigNS .A .NS rfl rfl rfl rfl rfl (by decide)).2.1,
   ((rrsig_distinct_buckets qW recSigA recSigNS .A .NS rfl rfl rfl rfl rfl
      (by decide)).2.2.2.2 lruW 0 rfl (by decide)).1,
   ((rrsig_distinct_buckets qW recSigA recSigNS .A .NS rfl rfl rfl rfl rfl
      (by decide)).2.2.2.2 lruW 0 rfl (by decide)).2⟩

/-- Witness for C6: a CNAME record is keyed under the original query's
type, an A record under its own type. -/
theorem cname_and_default_keys_witness :
    subQuery qW recCn = { name := "alias.example.com.", queryType := .A, queryClass := 1 } ∧
    subQuery qW (recW 5 1) = { name := "w.example.com.", queryType := .A, queryClass := 1 } :=
  ⟨(cname_and_default_keys qW recCn).1 rfl,
   (cname_and_default_keys qW (recW 5 1)).2 (by decide) (by decide)⟩

/-- Witness for C7: a lone CNAME bucket returns nothing but is cached;
a matching A bucket returns its insertion's Lookup. -/
theorem insert_records_match_witness :
    (lruW.insertRecords qW [recCn] 0).1 = none ∧
    (lruW.insertRecords qW [recW 5 1] 0).1 = some ((lruW.insert qW [(recW 5 1, 5)] 0).1) ∧
    (((lruW.insertRecords qW [recCn] 0).2).findValue (subQuery qW recCn)).isSome :=
  ⟨(insert_records_match lruW qW [recCn] 0).1 (by decide),
   (insert_records_match lruW qW [recW 5 1] 0).2.1 (qW, [(recW 5 1, 5)]) (by decide) (by decide),
   (insert_records_match lruW qW [recCn] 0).2.2.2 rfl (by decide)
     (subQuery qW recCn, [(recCn, 5)]) (by decide)⟩

/-- Witness for C8: a hit leaves the stored entry unchanged. -/
theorem get_preserves_store_witness :
    (insW.2.get qW 0).1 = some (rebasedOutcome vWd 0) ∧
    ((insW.2.get qW 0).2).findValue qW = insW.2.findValue qW :=
  ⟨by decide, get_preserves_store insW.2 qW 0 (rebasedOutcome vWd 0) (by decide) qW⟩

/-- Witness for C9: a 123 s duplicate TTL is stored as-is despite the
60 s positive ceiling. -/
theorem duplicate_unclamped_witness :
    (lruW.duplicate qX lkWd 123 50).1 = lkWd ∧
    ((lruW.duplicate qX lkWd 123 50).2).findValue qX
      = some { lookup := .ok lkWd, validUntil := 50 + secsToDur 123 } :=
  duplicate_unclamped lruW qX lkWd 123 50 (by decide)

/-- Witness for C10: 7 s maps to 7 on both paths; 2^32 s maps to 86400 on
the negative path and to 0 on the wrapping path. -/
theorem ttl_rewrite_paths_witness :
    nxErrorWithTtl (.noRecordsFound qW none 0 false) (secsToDur 7)
      = .noRecordsFound qW (some (u32TryFromOrMax (durAsSecs (secsToDur 7)))) 0 false ∧
    u32TryFromOrMax (durAsSecs (secsToDur 7)) = 7 ∧
    u32Wrap (durAsSecs (secsToDur 7)) = 7 ∧
    u32TryFromOrMax (durAsSecs (secsToDur 4294967296)) = 86400 ∧
    u32Wrap (durAsSecs (secsToDur 4294967296)) = 0 :=
  ⟨(ttl_rewrite_paths (secsToDur 7) qW none 0 false vWd lkWd 0 (by decide)).1,
   by decide, by decide, by decide, by decide⟩

end HickoryDnsLru
